import Mathlib

/-!
Verification development for the yomi-chatbot conversational agent.

This file gives a shallow embedding, in Lean 4, of the core components of the
repository — the per-turn workflow state machine (`src/agent/conversation_agent.py`,
`src/graph/nodes.py`), the hybrid FAISS/SQLite document store
(`src/database/faiss_document_db.py`, `src/rag/rag_system.py`), the smart memory
manager (`src/memory/smart_memory_manager.py`), the supervisor orchestrator
(`src/agent/supervisor_agent.py`) and the streaming event handler
(`src/api/streaming_handler.py`) — and proves or refutes the specified
properties of those components.

Modelling conventions:
* Python dictionaries keyed by strings become association lists; Python
  truthiness of optional strings is modelled explicitly.
* Vector arithmetic (FAISS `IndexFlatL2`) is modelled over exact rationals:
  the stored squared-L2 distances are computed exactly, and `1 / (1 + d)`
  converts a distance to a similarity as in `semantic_search`.
* External engines (the SQLite FTS5 `MATCH` predicate and its `bm25` rank,
  the language model, the embedding service, tool implementations, the wall
  clock) are inputs: they appear as function-valued fields of the store state
  or as explicit parameters, exactly at the points where the Python code calls
  out to them.
* Python `list.sort` is a stable sort; `stableSortBy` below is a stable
  insertion sort, which is extensionally the unique stable sorting function.
-/

namespace Yomi

/-! ### Stable sorting (model of Python `list.sort`)

`insertStable before a l` inserts `a` before the first element `b` of `l`
with `before a b = true`, hence after every earlier element that ties with
`a`; folding it over a list from the left yields exactly the stable sort. -/

def insertStable {α : Type} (before : α → α → Bool) (a : α) : List α → List α
  | [] => [a]
  | b :: t => if before a b then a :: b :: t else b :: insertStable before a t

def stableSortBy {α : Type} (before : α → α → Bool) (l : List α) : List α :=
  l.foldl (fun acc a => insertStable before a acc) []

theorem mem_insertStable {α : Type} (before : α → α → Bool) (a x : α) :
    ∀ l : List α, x ∈ insertStable before a l ↔ x = a ∨ x ∈ l := by
  intro l
  induction l with
  | nil => simp [insertStable]
  | cons b t ih =>
    by_cases h : before a b = true
    · simp [insertStable, h]
    · simp only [insertStable, h]
      simp only [Bool.false_eq_true, if_false, List.mem_cons, ih]
      tauto

theorem length_insertStable {α : Type} (before : α → α → Bool) (a : α) :
    ∀ l : List α, (insertStable before a l).length = l.length + 1 := by
  intro l
  induction l with
  | nil => simp [insertStable]
  | cons b t ih =>
    by_cases h : before a b = true
    · simp [insertStable, h]
    · simp [insertStable, h, ih]

theorem pairwise_insertStable {α : Type} {R : α → α → Prop} {before : α → α → Bool}
    (hyes : ∀ x y, before x y = true → R x y)
    (hno : ∀ x y, before x y = false → R y x)
    (htrans : ∀ x y z, R x y → R y z → R x z)
    (a : α) : ∀ l : List α, l.Pairwise R → (insertStable before a l).Pairwise R := by
  intro l
  induction l with
  | nil => intro _; simp [insertStable]
  | cons b t ih =>
    intro hp
    rcases List.pairwise_cons.mp hp with ⟨hb, ht⟩
    by_cases h : before a b = true
    · simp only [insertStable, h, if_true]
      refine List.pairwise_cons.mpr ⟨?_, hp⟩
      intro x hx
      rcases List.mem_cons.mp hx with rfl | hx
      · exact hyes a x h
      · exact htrans a b x (hyes a b h) (hb x hx)
    · simp only [insertStable, h]
      simp only [Bool.false_eq_true, if_false]
      refine List.pairwise_cons.mpr ⟨?_, ih ht⟩
      intro x hx
      rcases (mem_insertStable before a x t).mp hx with rfl | hx
      · exact hno _ b (by simpa using h)
      · exact hb x hx

theorem perm_insertStable {α : Type} (before : α → α → Bool) (a : α) :
    ∀ l : List α, (insertStable before a l).Perm (a :: l) := by
  intro l
  induction l with
  | nil => simp [insertStable]
  | cons b t ih =>
    by_cases h : before a b = true
    · simp [insertStable, h]
    · simp only [insertStable, h]
      simp only [Bool.false_eq_true, if_false]
      exact (List.Perm.cons b ih).trans (List.Perm.swap a b t)

theorem pairwise_stableSortBy_aux {α : Type} {R : α → α → Prop} {before : α → α → Bool}
    (hyes : ∀ x y, before x y = true → R x y)
    (hno : ∀ x y, before x y = false → R y x)
    (htrans : ∀ x y z, R x y → R y z → R x z) :
    ∀ (l acc : List α), acc.Pairwise R →
      (l.foldl (fun acc a => insertStable before a acc) acc).Pairwise R := by
  intro l
  induction l with
  | nil => intro acc h; simpa using h
  | cons a t ih =>
    intro acc h
    exact ih (insertStable before a acc) (pairwise_insertStable hyes hno htrans a acc h)

theorem pairwise_stableSortBy {α : Type} {R : α → α → Prop} {before : α → α → Bool}
    (hyes : ∀ x y, before x y = true → R x y)
    (hno : ∀ x y, before x y = false → R y x)
    (htrans : ∀ x y z, R x y → R y z → R x z)
    (l : List α) : (stableSortBy before l).Pairwise R :=
  pairwise_stableSortBy_aux hyes hno htrans l [] (List.Pairwise.nil)

theorem perm_stableSortBy_aux {α : Type} (before : α → α → Bool) :
    ∀ (l acc : List α),
      (l.foldl (fun acc a => insertStable before a acc) acc).Perm (acc ++ l) := by
  intro l
  induction l with
  | nil => intro acc; simp
  | cons a t ih =>
    intro acc
    refine (ih (insertStable before a acc)).trans ?_
    have h1 : (insertStable before a acc ++ t).Perm ((a :: acc) ++ t) :=
      (perm_insertStable before a acc).append_right t
    refine h1.trans ?_
    simpa using List.perm_middle.symm

theorem perm_stableSortBy {α : Type} (before : α → α → Bool) (l : List α) :
    (stableSortBy before l).Perm l := by
  simpa using perm_stableSortBy_aux before l []

theorem mem_stableSortBy {α : Type} (before : α → α → Bool) (l : List α) (x : α) :
    x ∈ stableSortBy before l ↔ x ∈ l :=
  (perm_stableSortBy before l).mem_iff

theorem length_stableSortBy {α : Type} (before : α → α → Bool) (l : List α) :
    (stableSortBy before l).length = l.length :=
  (perm_stableSortBy before l).length_eq

/-! ### Python truthiness for optional strings -/

/-- Truthiness of a Python `Optional[str]`: `None` and the empty string are
falsy, every other string is truthy (used by `state.get("error_message")`
checks and by `session_id or self._current_session`). -/
def isTruthyStr : Option String → Bool
  | none => false
  | some s => !(s == "")

/-! ### Document store: `FAISSDocumentDatabase` (src/database/faiss_document_db.py)

A store state holds the FAISS side (`dimension`, the vector list — `ntotal`
is its length — and `document_ids`) and the SQLite side (the `documents`
table rows, in rowid order).  The `id` column is the table's PRIMARY KEY and
`status` is `'active'` or `'deleted'` (soft delete).  `created_at` timestamps
are modelled as naturals.  The SQLite FTS5 engine is external: the `MATCH`
predicate and the `bm25` rank are function-valued fields of the state,
applied to the stored rows exactly where `search_documents` issues the FTS
query. -/

inductive DocStatus
  | active
  | deleted
deriving DecidableEq

structure DocRow where
  id : String
  title : String
  content : String
  searchKeywords : String
  summary : String
  status : DocStatus
  createdAt : Nat
  faissIndex : Option Nat
deriving DecidableEq

structure FaissStore where
  dimension : Nat
  vectors : List (List ℚ)
  documentIds : List String
  docs : List DocRow
  ftsMatch : String → DocRow → Bool
  bm25 : String → DocRow → ℚ

inductive SearchTier
  | semantic
  | fts
  | keyword
deriving DecidableEq

inductive SearchType
  | semantic
  | fts
  | keyword
  | hybrid
deriving DecidableEq

/-- One entry of the list returned by `search_documents`: the document row
together with the `similarity_score` and `search_type` keys stamped onto it. -/
structure SearchResult where
  row : DocRow
  score : ℚ
  tier : SearchTier
deriving DecidableEq

/-- Squared L2 distance between two rational vectors (FAISS `IndexFlatL2`
returns squared distances; modelled exactly over `ℚ`). -/
def sqDist (u v : List ℚ) : ℚ :=
  (List.zipWith (fun a b => (a - b) * (a - b)) u v).sum

/-- Model of `FAISSDocumentDatabase.semantic_search`: returns `[]` when the
index is empty or the query vector has the wrong dimension; otherwise ranks
all stored vectors by distance ascending (ties by insertion position, as in
the exact flat index), keeps `min top_k ntotal` of them, converts each
distance `d` to the similarity `1 / (1 + d)` and pairs it with the
corresponding entry of `document_ids`, skipping ordinals beyond the id
list (the `idx < len(self.document_ids)` guard). -/
def semanticSearch (st : FaissStore) (queryEmbedding : List ℚ) (topK : Nat) :
    List (String × ℚ) :=
  if st.vectors.length = 0 then []
  else if queryEmbedding.length ≠ st.dimension then []
  else
    let pairs := st.vectors.enum.map (fun p => (p.1, sqDist queryEmbedding p.2))
    let ranked := stableSortBy (fun a b => decide (a.2 < b.2)) pairs
    let kept := ranked.take (min topK st.vectors.length)
    kept.filterMap (fun p =>
      match st.documentIds.get? p.1 with
      | some docId => some (docId, 1 / (1 + p.2))
      | none => none)

/-- The SQL row lookup used by the semantic branch of `search_documents`:
`SELECT * FROM documents WHERE id IN (...) AND status = 'active'`, collected
into the Python dict `docs_dict` (later rows overwrite earlier ones, hence
the last matching row wins). -/
def docsDictFind (st : FaissStore) (semIds : List String) (docId : String) :
    Option DocRow :=
  ((st.docs.filter (fun r =>
      semIds.contains r.id && decide (r.status = DocStatus.active))).reverse).find?
    (fun r => r.id == docId)

/-- Semantic tier of `search_documents`: each `(doc_id, similarity)` pair of
`semantic_search`, joined against `docs_dict` (which keeps only rows with
`status = 'active'`), becomes a result tagged `search_type = 'semantic'`. -/
def semanticTierResults (st : FaissStore) (semPairs : List (String × ℚ)) :
    List SearchResult :=
  let semIds := semPairs.map (fun p => p.1)
  semPairs.filterMap (fun p =>
    match docsDictFind st semIds p.1 with
    | some row => some ⟨row, p.2, SearchTier.semantic⟩
    | none => none)

/-- Full-text tier: rows matched by FTS5 `MATCH`, still `'active'`, with ids
not among `existingIds`, ordered by the external `bm25` rank ascending and
cut to the remaining limit. -/
def ftsTier (st : FaissStore) (query : String) (existingIds : List String)
    (remaining : Nat) : List DocRow :=
  (stableSortBy (fun a b => decide (st.bm25 query a < st.bm25 query b))
    (st.docs.filter (fun r =>
      st.ftsMatch query r && decide (r.status = DocStatus.active) &&
        !(existingIds.contains r.id)))).take remaining

/-- SQLite `column LIKE '%query%'`: substring containment (the ASCII
case-folding sqlite applies to `LIKE` is not modelled; no claim depends on
it). -/
def likeContains (s query : String) : Bool :=
  decide (query.data <:+: s.data)

/-- Keyword tier: rows where the query occurs in title, content or
search_keywords, still `'active'`, ids not among `existingIds`, ordered by
`created_at` descending and cut to the remaining limit. -/
def keywordTier (st : FaissStore) (query : String) (existingIds : List String)
    (remaining : Nat) : List DocRow :=
  (stableSortBy (fun a b => decide (b.createdAt < a.createdAt))
    (st.docs.filter (fun r =>
      (likeContains r.title query || likeContains r.content query ||
        likeContains r.searchKeywords query) &&
        decide (r.status = DocStatus.active) &&
        !(existingIds.contains r.id)))).take remaining

/-- Does `search_documents` enter its SQL block
(`search_type in ['fts', 'keyword', 'hybrid']`)? -/
def isSqlType : SearchType → Bool
  | SearchType.fts => true
  | SearchType.keyword => true
  | SearchType.hybrid => true
  | SearchType.semantic => false

/-- `search_type in ['fts', 'hybrid']`. -/
def allowsFts : SearchType → Bool
  | SearchType.fts => true
  | SearchType.hybrid => true
  | _ => false

/-- `search_type in ['keyword', 'hybrid']`. -/
def allowsKw : SearchType → Bool
  | SearchType.keyword => true
  | SearchType.hybrid => true
  | _ => false

/-- The semantic tier of `search_documents`: runs only when an embedding
was passed and `search_type in ['semantic', 'hybrid']`. -/
def semTierOf (st : FaissStore) (queryEmbedding : Option (List ℚ))
    (limit : Nat) (stype : SearchType) : List SearchResult :=
  semanticTierResults st
    (match queryEmbedding with
     | some e =>
       if stype = SearchType.semantic ∨ stype = SearchType.hybrid then
         semanticSearch st e limit
       else []
     | none => [])

/-- The full-text entries appended by `search_documents`: only inside the
SQL block, only when slots remain after the semantic tier
(`remaining_limit > 0`), and only for `search_type in ['fts', 'hybrid']`;
they exclude the already-selected ids and carry the fixed score `0.8`. -/
def ftsSegment (st : FaissStore) (query : String)
    (queryEmbedding : Option (List ℚ)) (limit : Nat) (stype : SearchType) :
    List SearchResult :=
  let sem := semTierOf st queryEmbedding limit stype
  if isSqlType stype && decide (0 < limit - sem.length) && allowsFts stype then
    (ftsTier st query (sem.map (fun r => r.row.id)) (limit - sem.length)).map
      (fun row => ⟨row, 4/5, SearchTier.fts⟩)
  else []

/-- The keyword entries appended by `search_documents`: only inside the SQL
block, when the first remaining-limit check passed and slots still remain
after the full-text tier, for `search_type in ['keyword', 'hybrid']`; they
exclude everything selected so far and carry the fixed score `0.6`. -/
def kwSegment (st : FaissStore) (query : String)
    (queryEmbedding : Option (List ℚ)) (limit : Nat) (stype : SearchType) :
    List SearchResult :=
  let sem := semTierOf st queryEmbedding limit stype
  let semFts := sem ++ ftsSegment st query queryEmbedding limit stype
  if isSqlType stype && decide (0 < limit - sem.length) &&
      decide (0 < limit - semFts.length) && allowsKw stype then
    (keywordTier st query (semFts.map (fun r => r.row.id))
      (limit - semFts.length)).map
      (fun row => ⟨row, 3/5, SearchTier.keyword⟩)
  else []

/-- The `results` list of `search_documents` just before the final global
sort: the semantic tier, then the guarded full-text and keyword tiers.
(The guards reproduce the nested `remaining_limit > 0` /
`search_type in [...]` control flow of the Python block verbatim.) -/
def preSortResults (st : FaissStore) (query : String)
    (queryEmbedding : Option (List ℚ)) (limit : Nat) (stype : SearchType) :
    List SearchResult :=
  semTierOf st queryEmbedding limit stype ++
    ftsSegment st query queryEmbedding limit stype ++
    kwSegment st query queryEmbedding limit stype

/-- Model of `FAISSDocumentDatabase.search_documents`: assemble the tier
results, then `results.sort(key=similarity_score, reverse=True)` (a stable
sort, descending) and truncate to `limit`. -/
def searchDocuments (st : FaissStore) (query : String)
    (queryEmbedding : Option (List ℚ)) (limit : Nat) (stype : SearchType) :
    List SearchResult :=
  (stableSortBy (fun a b => decide (b.score < a.score))
    (preSortResults st query queryEmbedding limit stype)).take limit

/-- Model of `RAGSystem.search_relevant_documents`
(src/rag/rag_system.py): the query embedding is `some e` when the external
embedding call succeeded and `none` when it failed or is unavailable; the
search type is `'semantic'` exactly when an embedding is available,
otherwise `'hybrid'`; the store is searched with `limit = top_k * 2` and the
result is truncated to `top_k`. -/
def searchRelevantDocuments (st : FaissStore) (query : String)
    (queryEmbedding : Option (List ℚ)) (topK : Nat) : List SearchResult :=
  let stype :=
    match queryEmbedding with
    | some _ => SearchType.semantic
    | none => SearchType.hybrid
  (searchDocuments st query queryEmbedding (topK * 2) stype).take topK

/-! ### Document store write path: `add_document` / `delete_document` -/

/-- Caller-supplied fields of a new document (the uuid `id` is generated
outside the modelled logic). -/
structure NewDoc where
  id : String
  title : String
  content : String
  searchKeywords : String
  summary : String
deriving DecidableEq

/-- Model of `FAISSDocumentDatabase.add_document`.  With an embedding of the
wrong dimension the method returns before any insert (neither the FAISS
index nor the SQLite row is written).  With a well-dimensioned embedding the
vector is appended at ordinal `ntotal`, the id is appended to
`document_ids`, and the row is inserted with `faiss_index` set to that
ordinal.  Without an embedding only the row is inserted, with a NULL
`faiss_index`.  `created_at` (SQLite `CURRENT_TIMESTAMP`) is modelled by the
insertion counter. -/
def addDocument (st : FaissStore) (nd : NewDoc) (embedding : Option (List ℚ)) :
    FaissStore :=
  match embedding with
  | some v =>
    if v.length ≠ st.dimension then st
    else
      { st with
        vectors := st.vectors ++ [v]
        documentIds := st.documentIds ++ [nd.id]
        docs := st.docs ++ [⟨nd.id, nd.title, nd.content, nd.searchKeywords,
          nd.summary, DocStatus.active, st.docs.length, some st.vectors.length⟩] }
  | none =>
    { st with
      docs := st.docs ++ [⟨nd.id, nd.title, nd.content, nd.searchKeywords,
        nd.summary, DocStatus.active, st.docs.length, none⟩] }

/-- Model of `FAISSDocumentDatabase.delete_document`: soft delete.  Only the
`status` (and timestamp) columns of the matching row change; the FAISS index
and `document_ids` are untouched ("这里不从FAISS索引中删除"). -/
def deleteDocument (st : FaissStore) (docId : String) : FaissStore :=
  { st with
    docs := st.docs.map (fun r =>
      if r.id = docId then { r with status := DocStatus.deleted } else r) }

/-- A store operation: adding a document (with an optional embedding) or
soft-deleting by id. -/
inductive StoreOp
  | add (nd : NewDoc) (embedding : Option (List ℚ))
  | del (docId : String)

def applyStoreOp (st : FaissStore) : StoreOp → FaissStore
  | StoreOp.add nd embedding => addDocument st nd embedding
  | StoreOp.del docId => deleteDocument st docId

def runStoreOps (st : FaissStore) (ops : List StoreOp) : FaissStore :=
  ops.foldl applyStoreOp st

/-- The ids of the operations whose embedding is accepted into the FAISS
index (an embedding was supplied and its dimension matches). -/
def acceptedIds (d : Nat) : List StoreOp → List String
  | [] => []
  | StoreOp.add nd (some v) :: t =>
    if v.length ≠ d then acceptedIds d t else nd.id :: acceptedIds d t
  | StoreOp.add _ none :: t => acceptedIds d t
  | StoreOp.del _ :: t => acceptedIds d t

/-- The embeddings accepted into the FAISS index, in order. -/
def acceptedEmbeds (d : Nat) : List StoreOp → List (List ℚ)
  | [] => []
  | StoreOp.add _ (some v) :: t =>
    if v.length ≠ d then acceptedEmbeds d t else v :: acceptedEmbeds d t
  | StoreOp.add _ none :: t => acceptedEmbeds d t
  | StoreOp.del _ :: t => acceptedEmbeds d t

/-- The ids of every `DocumentRecord` ever inserted into the metadata table
(every add except the dimension-mismatch early return, which inserts
nothing). -/
def insertedIds (d : Nat) : List StoreOp → List String
  | [] => []
  | StoreOp.add nd (some v) :: t =>
    if v.length ≠ d then insertedIds d t else nd.id :: insertedIds d t
  | StoreOp.add nd none :: t => nd.id :: insertedIds d t
  | StoreOp.del _ :: t => insertedIds d t

/-- An empty store with the given dimension and external FTS oracles. -/
def emptyStore (d : Nat) (fm : String → DocRow → Bool) (br : String → DocRow → ℚ) :
    FaissStore :=
  ⟨d, [], [], [], fm, br⟩

/-! ### Memory manager: `SmartMemoryManager` (src/memory/smart_memory_manager.py)

A session's state pairs the persisted Chat Store log (`chat_messages` rows
for the session, in order) with the in-memory `_messages` list of its
`DatabaseChatMessageHistory`.  `add_message` appends to the in-memory list
and writes through to the store; `_summarize_history` rewrites only the
in-memory list. -/

inductive ChatRole
  | human
  | ai
  | system
  | tool
deriving DecidableEq

structure ChatMsg where
  role : ChatRole
  content : String
deriving DecidableEq

structure MemoryState where
  persisted : List ChatMsg
  mem : List ChatMsg
deriving DecidableEq

/-- Model of `DatabaseChatMessageHistory.add_message` (after the lazy load):
append to the in-memory list and write the message through to the Chat
Store. -/
def memAddMessage (s : MemoryState) (m : ChatMsg) : MemoryState :=
  ⟨s.persisted ++ [m], s.mem ++ [m]⟩

def runAppends (s : MemoryState) (ms : List ChatMsg) : MemoryState :=
  ms.foldl memAddMessage s

/-- Model of a completed `SmartMemoryManager._summarize_history` pass, with
`summary` the text the external model returned: with 2 or fewer in-memory
messages it returns immediately; otherwise `history._messages` becomes the
summary system message followed by the last 2 original messages.  No Chat
Store write occurs anywhere in the pass. -/
def summarizeHistory (summary : String) (s : MemoryState) : MemoryState :=
  if s.mem.length ≤ 2 then s
  else
    { persisted := s.persisted
      mem := ChatMsg.mk ChatRole.system ("[会话摘要]: " ++ summary) ::
        s.mem.drop (s.mem.length - 2) }

/-! ### Workflow engine: `ConversationAgent` (src/agent/conversation_agent.py)
and its nodes (src/graph/nodes.py) -/

/-- The `tool_detection_result` dict, with the `.get` defaults already
applied as the nodes read them (`confidence` defaults to `0.0`,
`suggested_args` to `{}`; a missing `tool_name` simply fails the later
schema lookup). -/
structure ToolDetection where
  needsTool : Bool
  toolName : String
  confidence : ℚ
  suggestedArgs : List (String × String)
deriving DecidableEq

/-- Mirror of the `ToolExecutionResult` dataclass (src/graph/state.py). -/
structure ToolExecResult where
  success : Bool
  toolName : String
  toolArgs : List (String × String)
  result : String
  confidence : ℚ
deriving DecidableEq

/-- Mirror of the `RAGSearchResult` dataclass (src/graph/state.py). -/
structure RagResult where
  hasRelevantDocs : Bool
  documents : List SearchResult
  contextForLlm : String
  sourceReferences : String
  searchQuery : String
deriving DecidableEq

/-- Mirror of the `AgentState` TypedDict (src/graph/state.py). -/
structure TurnState where
  sessionId : String
  userInput : String
  messages : List ChatMsg
  needsTool : Bool
  toolDetection : Option ToolDetection
  toolExecution : Option ToolExecResult
  ragResult : Option RagResult
  finalResponse : String
  stepCount : Nat
  errorMessage : Option String
deriving DecidableEq

/-- The workflow nodes registered in `ConversationAgent._create_workflow`. -/
inductive WfNode
  | initializeSession
  | saveUserInput
  | toolDetection
  | toolExecution
  | ragSearch
  | llmResponse
  | finalizeResponse
  | errorHandling
deriving DecidableEq

/-- What the compiled graph does after a node: proceed to another node,
reach END, or — when a conditional router returns a label absent from its
path map — have no defined successor. -/
inductive WfNext
  | node (n : WfNode)
  | finish
  | unrouted
deriving DecidableEq

/-- Model of `ConversationAgent._should_use_tool`: the router label computed
from the turn state (`state.get("error_message")` is a truthiness test, as
is `state.get("needs_tool", False)`). -/
def shouldUseTool (s : TurnState) : String :=
  if isTruthyStr s.errorMessage then "error_handling"
  else if s.needsTool then "use_tool" else "rag_search"

/-- The path map passed to `add_conditional_edges` for `tool_detection`:
only the labels `use_tool` and `rag_search` have successors. -/
def toolDetectionPathMap (label : String) : Option WfNode :=
  if label = "use_tool" then some WfNode.toolExecution
  else if label = "rag_search" then some WfNode.ragSearch
  else none

/-- Model of `ConversationAgent._tool_execution_result`: the router label
after the tool-execution node. -/
def toolExecutionResultLabel (s : TurnState) : String :=
  if isTruthyStr s.errorMessage then "failed"
  else
    match s.toolExecution with
    | some r => if r.success then "success" else "failed"
    | none => "failed"

/-- The path map passed to `add_conditional_edges` for `tool_execution`. -/
def toolExecutionPathMap (label : String) : Option WfNode :=
  if label = "success" then some WfNode.finalizeResponse
  else if label = "failed" then some WfNode.ragSearch
  else none

/-- The successor relation of the compiled graph of
`ConversationAgent._create_workflow`: the fixed edges plus the two
conditional routers with their path maps. -/
def wfSuccessor (n : WfNode) (s : TurnState) : WfNext :=
  match n with
  | WfNode.initializeSession => WfNext.node WfNode.saveUserInput
  | WfNode.saveUserInput => WfNext.node WfNode.toolDetection
  | WfNode.toolDetection =>
    match toolDetectionPathMap (shouldUseTool s) with
    | some m => WfNext.node m
    | none => WfNext.unrouted
  | WfNode.toolExecution =>
    match toolExecutionPathMap (toolExecutionResultLabel s) with
    | some m => WfNext.node m
    | none => WfNext.unrouted
  | WfNode.ragSearch => WfNext.node WfNode.llmResponse
  | WfNode.llmResponse => WfNext.node WfNode.finalizeResponse
  | WfNode.finalizeResponse => WfNext.finish
  | WfNode.errorHandling => WfNext.finish

/-! ### The tool-execution node (`AgentNodes.tool_execution_node`)

The node's externally visible behaviour is the mutated state together with
the ordered trace of its streaming-handler events and `execute_tool` calls.
External inputs — the tool schema registry, the outcome of
`wait_for_tool_confirmation` (`none` on timeout) and of `execute_tool` — are
parameters. -/

/-- The dict stored by `set_tool_confirmation` and returned by
`wait_for_tool_confirmation` (its `tool_args` key is always present,
defaulted to `{}` at set time). -/
structure ConfirmationResponse where
  confirmed : Bool
  toolArgs : List (String × String)
deriving DecidableEq

inductive NodeEvent
  | toolConfirmationNeeded
  | toolExecutionStart
  | toolExecutionComplete
  | toolConfirmationTimeout
  | toolConfirmationCancelled
deriving DecidableEq

inductive TraceItem
  | event (e : NodeEvent)
  | runTool (name : String)
deriving DecidableEq

/-- Model of `AgentNodes.tool_execution_node`.  Returns `none` when
`state["tool_detection_result"]` is `None` (the `.get` calls would raise);
on every reached turn the detection result is present.  Otherwise returns
the mutated state and the ordered trace of emitted events and tool runs:

* confidence below the hard-coded `0.7` floor: clear `needs_tool`, emit
  nothing, run nothing;
* unknown tool schema: likewise;
* otherwise emit `tool_confirmation_needed`, then wait; on a confirmed
  response run the tool between `tool_execution_start` and
  `tool_execution_complete` events (recording the result, and on failure
  setting the error message and clearing `needs_tool`); on a declined
  response emit `tool_confirmation_cancelled`; on timeout (`none`) emit
  `tool_confirmation_timeout`; in both of the latter cases clear
  `needs_tool`. -/
def toolExecutionNode (schemas : String → Option String)
    (confirmation : Option ConfirmationResponse) (execOutcome : Bool × String)
    (s : TurnState) : Option (TurnState × List TraceItem) :=
  match s.toolDetection with
  | none => none
  | some d =>
    if d.confidence < 7/10 then some ({ s with needsTool := false }, [])
    else
      match schemas d.toolName with
      | none => some ({ s with needsTool := false }, [])
      | some _ =>
        match confirmation with
        | some c =>
          if c.confirmed then
            let finalArgs := c.toolArgs
            let er : ToolExecResult :=
              ⟨execOutcome.1, d.toolName, finalArgs, execOutcome.2, d.confidence⟩
            let execTrace : List TraceItem :=
              [TraceItem.event NodeEvent.toolConfirmationNeeded,
               TraceItem.event NodeEvent.toolExecutionStart,
               TraceItem.runTool d.toolName,
               TraceItem.event NodeEvent.toolExecutionComplete]
            if execOutcome.1 then
              let s1 := { s with toolExecution := some er
                                 finalResponse := "工具执行结果: " ++ execOutcome.2 }
              some (s1, execTrace)
            else
              let s1 := { s with toolExecution := some er
                                 errorMessage := some ("工具执行失败: " ++ execOutcome.2)
                                 needsTool := false }
              some (s1, execTrace)
          else
            some ({ s with needsTool := false },
              [TraceItem.event NodeEvent.toolConfirmationNeeded,
               TraceItem.event NodeEvent.toolConfirmationCancelled])
        | none =>
          some ({ s with needsTool := false },
            [TraceItem.event NodeEvent.toolConfirmationNeeded,
             TraceItem.event NodeEvent.toolConfirmationTimeout])

/-- The event/execution trace of a run of the tool-execution node (empty for
the unreachable missing-detection case). -/
def nodeTrace (schemas : String → Option String)
    (confirmation : Option ConfirmationResponse) (execOutcome : Bool × String)
    (s : TurnState) : List TraceItem :=
  match toolExecutionNode schemas confirmation execOutcome s with
  | some p => p.2
  | none => []

/-! ### Supervisor orchestrator: `SupervisorAgent.invoke`
(src/agent/supervisor_agent.py)

What the supervisor does with a model response depends only on the raw text
and on what `json.loads` produces from it; the parse outcome (`none` for a
`json.JSONDecodeError`, `some v` for the parsed value) is therefore an input
of the embedded logic. -/

inductive PyJson
  | null
  | bool (b : Bool)
  | num (q : ℚ)
  | str (s : String)
  | arr (l : List PyJson)
  | obj (fields : List (String × PyJson))

/-- `AttributeError` raised by calling `.get` on a non-dict value; it is not
caught by the `except json.JSONDecodeError` handlers. -/
inductive PyError
  | attributeError
deriving DecidableEq

/-- Python `d.get(key, default)` on a JSON object's field list (first
binding wins, as in a dict built from unique keys). -/
def pyDictGet (fields : List (String × PyJson)) (key : String)
    (default : PyJson) : PyJson :=
  match fields.find? (fun p => p.1 == key) with
  | some p => p.2
  | none => default

/-- Python `d.get(key)` (default `None`). -/
def pyDictGetOpt (fields : List (String × PyJson)) (key : String) :
    Option PyJson :=
  (fields.find? (fun p => p.1 == key)).map (fun p => p.2)

/-- Python truthiness of a JSON value (used by `if agent_name else None`). -/
def pyTruthy : PyJson → Bool
  | PyJson.null => false
  | PyJson.bool b => b
  | PyJson.num q => !(q == 0)
  | PyJson.str s => !(s == "")
  | PyJson.arr l => !l.isEmpty
  | PyJson.obj l => !l.isEmpty

/-- Model of the planning step of `SupervisorAgent.invoke`:
`self.task_list = json.loads(plan_response_text).get("tasks", [])`, with the
`except json.JSONDecodeError` fallback `self.task_list =
[plan_response_text]`.  A response that is valid JSON but not an object
raises an uncaught `AttributeError` at the `.get` call. -/
def planTaskList (parsed : Option PyJson) (raw : String) :
    Except PyError PyJson :=
  match parsed with
  | none => Except.ok (PyJson.arr [PyJson.str raw])
  | some (PyJson.obj fields) =>
    Except.ok (pyDictGet fields "tasks" (PyJson.arr []))
  | some _ => Except.error PyError.attributeError

/-- Model of the per-task delegation decision: on a `json.JSONDecodeError`
the agent name falls back to `"SupervisorAgent"` and the sub-query to the
current task; a valid-JSON non-object raises an uncaught `AttributeError`. -/
def delegationDecision (parsed : Option PyJson) (currentTask : PyJson) :
    Except PyError (Option PyJson × Option PyJson) :=
  match parsed with
  | none => Except.ok (some (PyJson.str "SupervisorAgent"), some currentTask)
  | some (PyJson.obj fields) =>
    Except.ok (pyDictGetOpt fields "agent_name", pyDictGetOpt fields "task_input")
  | some _ => Except.error PyError.attributeError

/-- Model of `AbstractSupervisorAgent.get_agent`: look the name up among the
registered agents' class names; comparison with a non-string JSON value is
Python `==` against a string and never succeeds. -/
def getAgent (registry : List String) : PyJson → Option String
  | PyJson.str n => if registry.contains n then some n else none
  | _ => none

/-- How a task ends up being executed by the supervisor loop body. -/
inductive TaskExec
  | delegated (agent : String) (subQuery : Option PyJson)
  | selfExecuted (task : PyJson)

/-- Model of one iteration of the supervisor's delegation loop body (steps 3
and 4 of `SupervisorAgent.invoke`): decide, resolve the agent
(`self.get_agent(agent_name) if agent_name else None`), and either delegate
with the transformed sub-query or self-execute the current task via a raw
model call. -/
def delegateTask (registry : List String) (parsed : Option PyJson)
    (currentTask : PyJson) : Except PyError TaskExec :=
  match delegationDecision parsed currentTask with
  | Except.error e => Except.error e
  | Except.ok (agentName, taskInput) =>
    let selected :=
      match agentName with
      | some nj => if pyTruthy nj then getAgent registry nj else none
      | none => none
    match selected with
    | some a => Except.ok (TaskExec.delegated a taskInput)
    | none => Except.ok (TaskExec.selfExecuted currentTask)

/-! ### Streaming event bus: `StreamingHandler` (src/api/streaming_handler.py) -/

/-- A stream event: type, payload and the externally supplied timestamp. -/
structure StreamEvent where
  eventType : String
  data : List (String × String)
  timestamp : Nat
deriving DecidableEq

/-- The handler's per-session event queues (`_session_events`, an
insertion-ordered dict) and the current session id. -/
structure HandlerState where
  sessions : List (String × List StreamEvent)
  current : Option String
deriving DecidableEq

def handlerKeys (h : HandlerState) : List String :=
  h.sessions.map (fun p => p.1)

/-- Model of `StreamingHandler.set_current_session`: set the current id and
register an empty queue for it if absent. -/
def setCurrentSession (h : HandlerState) (sessionId : String) : HandlerState :=
  { sessions :=
      if (handlerKeys h).contains sessionId then h.sessions
      else h.sessions ++ [(sessionId, [])]
    current := some sessionId }

/-- Python `session_id or self._current_session`: the explicit argument wins
only when truthy (a `None` or empty-string argument falls back to the
current session). -/
def pyOrSession (sessionId : Option String) (current : Option String) :
    Option String :=
  if isTruthyStr sessionId then sessionId else current

/-- Model of `StreamingHandler.add_event`: resolve the target session via
Python `or`; with no truthy target return unchanged; otherwise append the
event to the target's queue only if that queue is registered, and do nothing
at all otherwise. -/
def addEvent (h : HandlerState) (eventType : String)
    (data : List (String × String)) (timestamp : Nat)
    (sessionId : Option String) : HandlerState :=
  match pyOrSession sessionId h.current with
  | none => h
  | some target =>
    if target = "" then h
    else if (handlerKeys h).contains target then
      { h with sessions := h.sessions.map (fun p =>
          if p.1 = target then (p.1, p.2 ++ [⟨eventType, data, timestamp⟩])
          else p) }
    else h

/-! ## Facts about the search read path -/

theorem mem_semanticTierResults {st : FaissStore} {semPairs : List (String × ℚ)}
    {r : SearchResult} (hr : r ∈ semanticTierResults st semPairs) :
    r.tier = SearchTier.semantic ∧ r.row.status = DocStatus.active := by
  unfold semanticTierResults at hr
  rcases List.mem_filterMap.mp hr with ⟨p, _, hp⟩
  rcases hfind : docsDictFind st (semPairs.map (fun p => p.1)) p.1 with _ | row
  · rw [hfind] at hp
    exact absurd hp (by simp)
  · rw [hfind] at hp
    have hrq : r = ⟨row, p.2, SearchTier.semantic⟩ := by
      simpa using hp.symm
    subst hrq
    refine ⟨rfl, ?_⟩
    unfold docsDictFind at hfind
    have hmem := List.mem_of_find?_eq_some hfind
    have hmem2 := List.mem_reverse.mp hmem
    have hpred := (List.mem_filter.mp hmem2).2
    rcases Bool.and_eq_true_iff.mp hpred with ⟨_, hact⟩
    simpa using of_decide_eq_true hact

theorem mem_ftsTier {st : FaissStore} {q : String} {ids : List String}
    {rem : Nat} {row : DocRow} (hrow : row ∈ ftsTier st q ids rem) :
    row.status = DocStatus.active := by
  unfold ftsTier at hrow
  have h1 := List.mem_of_mem_take hrow
  have h2 := (mem_stableSortBy _ _ row).mp h1
  have hpred := (List.mem_filter.mp h2).2
  rcases Bool.and_eq_true_iff.mp hpred with ⟨hl, _⟩
  rcases Bool.and_eq_true_iff.mp hl with ⟨_, hact⟩
  simpa using of_decide_eq_true hact

theorem mem_keywordTier {st : FaissStore} {q : String} {ids : List String}
    {rem : Nat} {row : DocRow} (hrow : row ∈ keywordTier st q ids rem) :
    row.status = DocStatus.active := by
  unfold keywordTier at hrow
  have h1 := List.mem_of_mem_take hrow
  have h2 := (mem_stableSortBy _ _ row).mp h1
  have hpred := (List.mem_filter.mp h2).2
  rcases Bool.and_eq_true_iff.mp hpred with ⟨hl, _⟩
  rcases Bool.and_eq_true_iff.mp hl with ⟨_, hact⟩
  simpa using of_decide_eq_true hact

/-- Every element of the tier list assembled by `search_documents` is an
active row, full-text entries carry the fixed score `0.8`, and keyword
entries the fixed score `0.6`. -/
theorem preSortResults_row_facts {st : FaissStore} {q : String}
    {emb : Option (List ℚ)} {limit : Nat} {stype : SearchType}
    {r : SearchResult} (hr : r ∈ preSortResults st q emb limit stype) :
    r.row.status = DocStatus.active ∧
    (r.tier = SearchTier.fts → r.score = 4/5) ∧
    (r.tier = SearchTier.keyword → r.score = 3/5) := by
  have hsem : ∀ sp, r ∈ semanticTierResults st sp →
      r.row.status = DocStatus.active ∧
      (r.tier = SearchTier.fts → r.score = 4/5) ∧
      (r.tier = SearchTier.keyword → r.score = 3/5) := by
    intro sp h
    rcases mem_semanticTierResults h with ⟨ht, ha⟩
    exact ⟨ha, fun hf => absurd (ht ▸ hf) (by simp),
      fun hk => absurd (ht ▸ hk) (by simp)⟩
  have hfts : ∀ (ids : List String) (rem : Nat),
      r ∈ (ftsTier st q ids rem).map
        (fun row => (⟨row, 4/5, SearchTier.fts⟩ : SearchResult)) →
      r.row.status = DocStatus.active ∧
      (r.tier = SearchTier.fts → r.score = 4/5) ∧
      (r.tier = SearchTier.keyword → r.score = 3/5) := by
    intro ids rem h
    rcases List.mem_map.mp h with ⟨row, hrow, hq⟩
    subst hq
    exact ⟨mem_ftsTier hrow, fun _ => rfl, fun hk => absurd hk (by simp)⟩
  have hkw : ∀ (ids : List String) (rem : Nat),
      r ∈ (keywordTier st q ids rem).map
        (fun row => (⟨row, 3/5, SearchTier.keyword⟩ : SearchResult)) →
      r.row.status = DocStatus.active ∧
      (r.tier = SearchTier.fts → r.score = 4/5) ∧
      (r.tier = SearchTier.keyword → r.score = 3/5) := by
    intro ids rem h
    rcases List.mem_map.mp h with ⟨row, hrow, hq⟩
    subst hq
    exact ⟨mem_keywordTier hrow, fun hf => absurd hf (by simp), fun _ => rfl⟩
  simp only [preSortResults, List.append_assoc] at hr
  rcases List.mem_append.mp hr with h | h
  · exact hsem _ h
  rcases List.mem_append.mp h with h2 | h2
  · simp only [ftsSegment] at h2
    split at h2
    · exact hfts _ _ h2
    · exact absurd h2 (by simp)
  · simp only [kwSegment] at h2
    split at h2
    · exact hkw _ _ h2
    · exact absurd h2 (by simp)

theorem mem_searchDocuments {st : FaissStore} {q : String}
    {emb : Option (List ℚ)} {limit : Nat} {stype : SearchType}
    {r : SearchResult} (hr : r ∈ searchDocuments st q emb limit stype) :
    r ∈ preSortResults st q emb limit stype :=
  (mem_stableSortBy _ _ r).mp (List.mem_of_mem_take hr)

/-! ## Claims about the document store write path -/

/-- The `(faiss_index, id)` pairs carried by the metadata rows, in row
order: the claimed ordinal-to-record correspondence. -/
def idxIdPairs (s : FaissStore) : List (Nat × String) :=
  s.docs.filterMap (fun r => r.faissIndex.map (fun i => (i, r.id)))

theorem dimension_applyStoreOp (s : FaissStore) (op : StoreOp) :
    (applyStoreOp s op).dimension = s.dimension := by
  cases op with
  | add nd embedding =>
    cases embedding with
    | some v =>
      by_cases h : v.length ≠ s.dimension
      · simp [applyStoreOp, addDocument, h]
      · simp [applyStoreOp, addDocument, h]
    | none => rfl
  | del docId => rfl

theorem documentIds_runStoreOps :
    ∀ (ops : List StoreOp) (s : FaissStore),
      (runStoreOps s ops).documentIds =
        s.documentIds ++ acceptedIds s.dimension ops := by
  intro ops
  induction ops with
  | nil => intro s; simp [runStoreOps, acceptedIds]
  | cons op t ih =>
    intro s
    have hstep : runStoreOps s (op :: t) = runStoreOps (applyStoreOp s op) t := rfl
    rw [hstep, ih (applyStoreOp s op), dimension_applyStoreOp]
    cases op with
    | add nd embedding =>
      cases embedding with
      | some v =>
        by_cases h : v.length ≠ s.dimension
        · simp [applyStoreOp, addDocument, h, acceptedIds]
        · simp [applyStoreOp, addDocument, h, acceptedIds]
      | none => simp [applyStoreOp, addDocument, acceptedIds]
    | del docId => simp [applyStoreOp, deleteDocument, acceptedIds]

theorem vectors_runStoreOps :
    ∀ (ops : List StoreOp) (s : FaissStore),
      (runStoreOps s ops).vectors = s.vectors ++ acceptedEmbeds s.dimension ops := by
  intro ops
  induction ops with
  | nil => intro s; simp [runStoreOps, acceptedEmbeds]
  | cons op t ih =>
    intro s
    have hstep : runStoreOps s (op :: t) = runStoreOps (applyStoreOp s op) t := rfl
    rw [hstep, ih (applyStoreOp s op), dimension_applyStoreOp]
    cases op with
    | add nd embedding =>
      cases embedding with
      | some v =>
        by_cases h : v.length ≠ s.dimension
        · simp [applyStoreOp, addDocument, h, acceptedEmbeds]
        · simp [applyStoreOp, addDocument, h, acceptedEmbeds]
      | none => simp [applyStoreOp, addDocument, acceptedEmbeds]
    | del docId => simp [applyStoreOp, deleteDocument, acceptedEmbeds]

theorem idxIdPairs_deleteDocument (s : FaissStore) (docId : String) :
    idxIdPairs (deleteDocument s docId) = idxIdPairs s := by
  unfold idxIdPairs deleteDocument
  simp only [List.filterMap_map]
  apply List.filterMap_congr
  intro r _
  by_cases h : r.id = docId
  · simp [h]
  · simp [h]

theorem idxIdPairs_runStoreOps :
    ∀ (ops : List StoreOp) (s : FaissStore),
      idxIdPairs (runStoreOps s ops) =
        idxIdPairs s ++
          List.enumFrom s.vectors.length (acceptedIds s.dimension ops) := by
  intro ops
  induction ops with
  | nil => intro s; simp [runStoreOps, acceptedIds]
  | cons op t ih =>
    intro s
    have hstep : runStoreOps s (op :: t) = runStoreOps (applyStoreOp s op) t := rfl
    rw [hstep, ih (applyStoreOp s op), dimension_applyStoreOp]
    cases op with
    | add nd embedding =>
      cases embedding with
      | some v =>
        by_cases h : v.length ≠ s.dimension
        · simp [applyStoreOp, addDocument, h, acceptedIds]
        · simp only [applyStoreOp, addDocument, h, if_false, ite_false]
          simp [idxIdPairs, List.filterMap_append, acceptedIds, h,
            List.enumFrom]
      | none =>
        simp [applyStoreOp, addDocument, acceptedIds, idxIdPairs,
          List.filterMap_append]
    | del docId =>
      have hdel := idxIdPairs_deleteDocument s docId
      simp only [applyStoreOp]
      rw [hdel]
      simp [deleteDocument, acceptedIds]

theorem dimension_runStoreOps :
    ∀ (ops : List StoreOp) (s : FaissStore),
      (runStoreOps s ops).dimension = s.dimension := by
  intro ops
  induction ops with
  | nil => intro s; rfl
  | cons op t ih =>
    intro s
    have hstep : runStoreOps s (op :: t) = runStoreOps (applyStoreOp s op) t := rfl
    rw [hstep, ih (applyStoreOp s op), dimension_applyStoreOp]

def noFts : String → DocRow → Bool := fun _ _ => false

def zeroRank : String → DocRow → ℚ := fun _ _ => 0

def ndA : NewDoc := ⟨"A", "doc a", "alpha text", "", ""⟩

def ndB : NewDoc := ⟨"B", "doc b", "beta text", "", ""⟩

/-- Add `A` without an embedding, then `B` with a well-dimensioned one. -/
def opsC8 : List StoreOp := [StoreOp.add ndA none, StoreOp.add ndB (some [0])]

def storeC8 : FaissStore := runStoreOps (emptyStore 1 noFts zeroRank) opsC8

/-- C8 counterexample.  Documents added without an embedding get a metadata
row but no vector, so ordinal `i` of the index does NOT correspond to the
`i`-th ever-added `DocumentRecord`: after adding `A` (no embedding) and then
`B` (with embedding), the ever-inserted records are `[A, B]`, yet entry 0 of
the id list is `B` — the second record — and `B`'s stored `faiss_index` is
`0` while `A`'s is NULL. -/
theorem C8_ordinal_not_ith_record :
    insertedIds 1 opsC8 = ["A", "B"] ∧
    storeC8.documentIds = ["B"] ∧
    storeC8.docs.map (fun r => (r.id, r.faissIndex)) =
      [("A", none), ("B", some 0)] ∧
    storeC8.documentIds.get? 0 ≠ some "A" := by
  refine ⟨rfl, rfl, rfl, ?_⟩
  intro h
  simp [storeC8, runStoreOps, opsC8, applyStoreOp, addDocument, emptyStore,
    noFts, zeroRank, ndA, ndB] at h

/-- C8 (amended).  Over every operation sequence from an empty store: the
vector index is append-only and holds exactly the accepted embeddings (an
embedding is accepted when supplied with the store's dimension) in
insertion order; ordinal `i` corresponds 1:1, in insertion order, to the
`i`-th record added WITH an accepted embedding — the `i`-th entry of the id
list is that record's id and that record's stored `faiss_index` is `i`; and
soft-deleting removes or renumbers nothing: vectors, id list and every
row's `faiss_index` are untouched. -/
theorem C8_index_append_only :
    ∀ (ops : List StoreOp) (d : Nat) (fm : String → DocRow → Bool)
      (br : String → DocRow → ℚ),
      (runStoreOps (emptyStore d fm br) ops).documentIds = acceptedIds d ops ∧
      (runStoreOps (emptyStore d fm br) ops).vectors = acceptedEmbeds d ops ∧
      idxIdPairs (runStoreOps (emptyStore d fm br) ops) =
        (acceptedIds d ops).enum ∧
      (∀ more : List StoreOp,
        (runStoreOps (emptyStore d fm br) (ops ++ more)).vectors =
          (runStoreOps (emptyStore d fm br) ops).vectors ++
            acceptedEmbeds d more) ∧
      (∀ (s : FaissStore) (docId : String),
        (deleteDocument s docId).vectors = s.vectors ∧
        (deleteDocument s docId).documentIds = s.documentIds ∧
        idxIdPairs (deleteDocument s docId) = idxIdPairs s) := by
  intro ops d fm br
  refine ⟨?_, ?_, ?_, ?_, ?_⟩
  · simpa [emptyStore] using documentIds_runStoreOps ops (emptyStore d fm br)
  · simpa [emptyStore] using vectors_runStoreOps ops (emptyStore d fm br)
  · have := idxIdPairs_runStoreOps ops (emptyStore d fm br)
    simpa [emptyStore, idxIdPairs, List.enum] using this
  · intro more
    have hsplit : runStoreOps (emptyStore d fm br) (ops ++ more) =
        runStoreOps (runStoreOps (emptyStore d fm br) ops) more := by
      simp [runStoreOps, List.foldl_append]
    rw [hsplit, vectors_runStoreOps more (runStoreOps (emptyStore d fm br) ops),
      dimension_runStoreOps]
    simp [emptyStore]
  · intro s docId
    exact ⟨rfl, rfl, idxIdPairs_deleteDocument s docId⟩

/-! ## Claims about the workflow engine -/

/-- A turn state carrying a fatal error (as left by a failed
`initialize_session_node`), reaching the `tool_detection` router. -/
def errTurnState : TurnState :=
  ⟨"s1", "hello", [], false, none, none, none, "", 0,
    some ("会话 s1 初始化失败")⟩

/-- C1.  At the `tool_detection` router the successor is `tool_execution`
iff `needs_tool` is truthy and no error is set, and it is `rag_search` when
`needs_tool` is falsy and no error is set; but when an error IS set,
`_should_use_tool` returns the label `error_handling`, which is absent from
the path map `{"use_tool": ..., "rag_search": ...}` registered for this
router, so the turn has NO defined successor (LangGraph raises on the
unmapped branch label) instead of reaching the error-handling state. -/
theorem C1_toolDetection_error_label_unrouted :
    shouldUseTool errTurnState = "error_handling" ∧
    toolDetectionPathMap "error_handling" = none ∧
    wfSuccessor WfNode.toolDetection errTurnState = WfNext.unrouted ∧
    ∀ s : TurnState,
      wfSuccessor WfNode.toolDetection s =
        (if isTruthyStr s.errorMessage then WfNext.unrouted
         else if s.needsTool then WfNext.node WfNode.toolExecution
         else WfNext.node WfNode.ragSearch) := by
  refine ⟨rfl, rfl, rfl, ?_⟩
  intro s
  by_cases h : isTruthyStr s.errorMessage = true
  · simp [wfSuccessor, shouldUseTool, toolDetectionPathMap, h]
  · have h' : isTruthyStr s.errorMessage = false := by
      simpa using h
    by_cases hn : s.needsTool
    · simp [wfSuccessor, shouldUseTool, toolDetectionPathMap, h', hn]
    · simp [wfSuccessor, shouldUseTool, toolDetectionPathMap, h', hn]

/-! ## Claims about the memory manager -/

/-- Auxiliary: the persisted log after a run of appends is the initial log
extended by exactly the appended messages. -/
theorem persisted_runAppends :
    ∀ (ms : List ChatMsg) (s : MemoryState),
      (runAppends s ms).persisted = s.persisted ++ ms := by
  intro ms
  induction ms with
  | nil => intro s; simp [runAppends]
  | cons m t ih =>
    intro s
    have := ih (memAddMessage s m)
    simp only [runAppends, List.foldl_cons] at this ⊢
    rw [this]
    simp [memAddMessage]

/-- C5.  A completed summarization pass on a session with more than 2
in-memory messages replaces the in-memory view with exactly one summary
system message followed by the 2 most recent original messages, never
touches the persisted log (which still equals exactly what the appends
produced), and with 2 or fewer messages changes nothing at all. -/
theorem C5_summarization_inmemory_only :
    ∀ (s : MemoryState) (summary : String),
      (summarizeHistory summary s).persisted = s.persisted ∧
      (2 < s.mem.length →
        (summarizeHistory summary s).mem =
          ChatMsg.mk ChatRole.system ("[会话摘要]: " ++ summary) ::
            s.mem.drop (s.mem.length - 2) ∧
        (s.mem.drop (s.mem.length - 2)).length = 2) ∧
      (s.mem.length ≤ 2 → summarizeHistory summary s = s) ∧
      ∀ ms : List ChatMsg,
        (summarizeHistory summary (runAppends ⟨[], []⟩ ms)).persisted = ms := by
  intro s summary
  refine ⟨?_, ?_, ?_, ?_⟩
  · by_cases h : s.mem.length ≤ 2
    · simp [summarizeHistory, h]
    · simp [summarizeHistory, h]
  · intro h
    have h' : ¬ s.mem.length ≤ 2 := by omega
    refine ⟨by simp [summarizeHistory, h'], ?_⟩
    rw [List.length_drop]
    omega
  · intro h
    simp [summarizeHistory, h]
  · intro ms
    by_cases h : (runAppends ⟨[], []⟩ ms).mem.length ≤ 2
    · simp [summarizeHistory, h, persisted_runAppends]
    · simp [summarizeHistory, h, persisted_runAppends]

def msgA : ChatMsg := ⟨ChatRole.human, "what is 2+2"⟩
def msgB : ChatMsg := ⟨ChatRole.ai, "4"⟩
def msgC : ChatMsg := ⟨ChatRole.human, "thanks"⟩

def memEx : MemoryState := ⟨[msgA, msgB, msgC], [msgA, msgB, msgC]⟩

/-- Witness for C5 at a concrete 3-message session. -/
theorem C5_summarization_inmemory_only_witness :
    (summarizeHistory ("short summary") memEx).persisted = memEx.persisted ∧
    (summarizeHistory ("short summary") memEx).mem =
      ChatMsg.mk ChatRole.system ("[会话摘要]: " ++ "short summary") ::
        memEx.mem.drop (memEx.mem.length - 2) :=
  ⟨(C5_summarization_inmemory_only memEx "short summary").1,
   ((C5_summarization_inmemory_only memEx "short summary").2.1 (by decide)).1⟩

/-! ## Claims about the tool-confirmation coordinator -/

/-- C6.  On every turn that reaches the tool-execution node: a detection
confidence below the hard-coded `0.7` floor makes the node clear
`needs_tool` and return with an empty trace — no confirmation request event
and no tool run; at or above the floor, with a known tool schema, the very
first trace item is the `tool_confirmation_needed` event, and every
`execute_tool` call in the trace occurs at a strictly later position. -/
theorem C6_confirmation_precedes_execution :
    ∀ (schemas : String → Option String)
      (confirmation : Option ConfirmationResponse)
      (execOutcome : Bool × String) (s : TurnState) (d : ToolDetection),
      s.toolDetection = some d →
      (d.confidence < 7/10 →
        toolExecutionNode schemas confirmation execOutcome s =
          some ({ s with needsTool := false }, [])) ∧
      (7/10 ≤ d.confidence → (schemas d.toolName).isSome = true →
        (nodeTrace schemas confirmation execOutcome s).head? =
          some (TraceItem.event NodeEvent.toolConfirmationNeeded) ∧
        ∀ (i : Nat) (name : String),
          (nodeTrace schemas confirmation execOutcome s).get? i =
            some (TraceItem.runTool name) → 0 < i) := by
  intro schemas confirmation execOutcome s d hdet
  constructor
  · intro hlow
    simp [toolExecutionNode, hdet, hlow]
  · intro hge hschema
    have hnotlt : ¬ d.confidence < 7/10 := not_lt.mpr hge
    obtain ⟨sch, hsch⟩ := Option.isSome_iff_exists.mp hschema
    rcases confirmation with _ | c
    · constructor
      · simp [nodeTrace, toolExecutionNode, hdet, hnotlt, hsch]
      · intro i name hi
        match i with
        | 0 =>
          simp [nodeTrace, toolExecutionNode, hdet, hnotlt, hsch] at hi
        | Nat.succ n => exact Nat.succ_pos n
    · by_cases hc : c.confirmed
      · rcases execOutcome with ⟨b, r⟩
        cases b
        · constructor
          · simp [nodeTrace, toolExecutionNode, hdet, hnotlt, hsch, hc]
          · intro i name hi
            match i with
            | 0 =>
              simp [nodeTrace, toolExecutionNode, hdet, hnotlt, hsch, hc] at hi
            | Nat.succ n => exact Nat.succ_pos n
        · constructor
          · simp [nodeTrace, toolExecutionNode, hdet, hnotlt, hsch, hc]
          · intro i name hi
            match i with
            | 0 =>
              simp [nodeTrace, toolExecutionNode, hdet, hnotlt, hsch, hc] at hi
            | Nat.succ n => exact Nat.succ_pos n
      · constructor
        · simp [nodeTrace, toolExecutionNode, hdet, hnotlt, hsch, hc]
        · intro i name hi
          match i with
          | 0 =>
            simp [nodeTrace, toolExecutionNode, hdet, hnotlt, hsch, hc] at hi
          | Nat.succ n => exact Nat.succ_pos n

/-- Tool schema registry with a single tool, for witnesses. -/
def schemasEx : String → Option String :=
  fun n => if n = "add" then some ("add(a, b) -> a + b") else none

def detectionEx : ToolDetection := ⟨true, "add", 9/10, [("a", "5"), ("b", "3")]⟩

def turnEx : TurnState :=
  ⟨"s1", "compute 5+3", [], true, some detectionEx, none, none, "", 0, none⟩

/-- Witness for C6: at confidence `0.9 ≥ 0.7` with a registered tool and a
confirmed response, the confirmation request event heads the trace. -/
theorem C6_confirmation_precedes_execution_witness :
    (nodeTrace schemasEx (some ⟨true, []⟩) (true, "8") turnEx).head? =
      some (TraceItem.event NodeEvent.toolConfirmationNeeded) :=
  ((C6_confirmation_precedes_execution schemasEx (some ⟨true, []⟩) (true, "8")
      turnEx detectionEx rfl).2 (by norm_num [detectionEx]) (by decide)).1

/-- C7.  When the confirmation wait for a session times out
(`wait_for_tool_confirmation` returns `None`): the node emits exactly one
`tool_confirmation_timeout` event, runs no tool, clears `needs_tool`
(treating the request as declined), and the router then sends the turn down
the retrieval path — `rag_search`, then `llm_response`, then
`finalize_response`, then END — rather than leaving it hanging or failing
hard. -/
theorem C7_confirmation_timeout_declines :
    ∀ (schemas : String → Option String) (execOutcome : Bool × String)
      (s : TurnState) (d : ToolDetection),
      s.toolDetection = some d → 7/10 ≤ d.confidence →
      (schemas d.toolName).isSome = true → s.toolExecution = none →
      toolExecutionNode schemas none execOutcome s =
        some ({ s with needsTool := false },
          [TraceItem.event NodeEvent.toolConfirmationNeeded,
           TraceItem.event NodeEvent.toolConfirmationTimeout]) ∧
      (nodeTrace schemas none execOutcome s).count
        (TraceItem.event NodeEvent.toolConfirmationTimeout) = 1 ∧
      (∀ name : String,
        TraceItem.runTool name ∉ nodeTrace schemas none execOutcome s) ∧
      wfSuccessor WfNode.toolExecution { s with needsTool := false } =
        WfNext.node WfNode.ragSearch ∧
      (∀ t : TurnState, wfSuccessor WfNode.ragSearch t =
        WfNext.node WfNode.llmResponse) ∧
      (∀ t : TurnState, wfSuccessor WfNode.llmResponse t =
        WfNext.node WfNode.finalizeResponse) ∧
      (∀ t : TurnState, wfSuccessor WfNode.finalizeResponse t =
        WfNext.finish) := by
  intro schemas execOutcome s d hdet hge hschema hexec
  have hnotlt : ¬ d.confidence < 7/10 := not_lt.mpr hge
  obtain ⟨sch, hsch⟩ := Option.isSome_iff_exists.mp hschema
  have hnode : toolExecutionNode schemas none execOutcome s =
      some ({ s with needsTool := false },
        [TraceItem.event NodeEvent.toolConfirmationNeeded,
         TraceItem.event NodeEvent.toolConfirmationTimeout]) := by
    simp [toolExecutionNode, hdet, hnotlt, hsch]
  refine ⟨hnode, ?_, ?_, ?_, fun t => rfl, fun t => rfl, fun t => rfl⟩
  · simp [nodeTrace, hnode]
  · intro name
    simp [nodeTrace, hnode]
  · by_cases herr : isTruthyStr s.errorMessage = true
    · simp [wfSuccessor, toolExecutionResultLabel, toolExecutionPathMap, herr]
    · have herr' : isTruthyStr s.errorMessage = false := by
        simpa using herr
      simp [wfSuccessor, toolExecutionResultLabel, toolExecutionPathMap,
        herr', hexec]

/-- Witness for C7 at a concrete turn whose confirmation wait times out. -/
theorem C7_confirmation_timeout_declines_witness :
    toolExecutionNode schemasEx none (true, "8") turnEx =
      some ({ turnEx with needsTool := false },
        [TraceItem.event NodeEvent.toolConfirmationNeeded,
         TraceItem.event NodeEvent.toolConfirmationTimeout]) :=
  (C7_confirmation_timeout_declines schemasEx (true, "8") turnEx detectionEx
      rfl (by norm_num [detectionEx]) (by decide) rfl).1

/-! ## Claims about the supervisor orchestrator -/

/-- C9 counterexample.  A planning model output that is valid JSON but not
an object — here the JSON array `[1, 2]` — does not become a single-task
fallback list: `json.loads` succeeds, `.get` is called on a Python list, and
the resulting `AttributeError` is not caught by the
`except json.JSONDecodeError` handler, so the loop aborts.  (The fallback
does fire when the text is not valid JSON at all.) -/
theorem C9_plan_parse_nonobject_aborts :
    planTaskList (some (PyJson.arr [PyJson.num 1, PyJson.num 2])) ("[1, 2]") =
      Except.error PyError.attributeError ∧
    planTaskList none ("[1, 2]") =
      Except.ok (PyJson.arr [PyJson.str ("[1, 2]")]) := ⟨rfl, rfl⟩

/-- C9 (amended).  Only a `json.JSONDecodeError` (text that is not valid
JSON) triggers the documented fallbacks: the plan becomes the single raw
task, and a delegation parse failure resolves to the unregistered name
`SupervisorAgent` and hence to direct self-execution of the current task via
a raw model call; a valid-JSON non-object output instead raises an uncaught
`AttributeError` that aborts the loop. -/
theorem C9_parse_fallbacks :
    (∀ raw : String,
      planTaskList none raw = Except.ok (PyJson.arr [PyJson.str raw])) ∧
    (∀ (fields : List (String × PyJson)) (raw : String),
      planTaskList (some (PyJson.obj fields)) raw =
        Except.ok (pyDictGet fields "tasks" (PyJson.arr []))) ∧
    (∀ (registry : List String) (task : PyJson),
      registry.contains "SupervisorAgent" = false →
      delegateTask registry none task =
        Except.ok (TaskExec.selfExecuted task)) ∧
    (∀ (raw : String) (l : List PyJson),
      planTaskList (some (PyJson.arr l)) raw =
        Except.error PyError.attributeError) := by
  refine ⟨fun raw => rfl, fun fields raw => rfl, ?_, fun raw l => rfl⟩
  intro registry task h
  have h' : "SupervisorAgent" ∉ registry := by
    simpa using h
  simp [delegateTask, delegationDecision, pyTruthy, getAgent, h']

/-- Witness for C9 (amended) with the default registry, which has no agent
named `SupervisorAgent`. -/
theorem C9_parse_fallbacks_witness :
    delegateTask ["DocumentAgent", "ToolAgent"] none (PyJson.str ("task one")) =
      Except.ok (TaskExec.selfExecuted (PyJson.str ("task one"))) :=
  C9_parse_fallbacks.2.2.1 ["DocumentAgent", "ToolAgent"]
    (PyJson.str ("task one")) (by decide)

/-! ## Claims about the streaming event bus -/

/-- A handler with one registered session `s1`, which is also current. -/
def handlerEx : HandlerState := ⟨[("s1", [])], some "s1"⟩

/-- C10 counterexample.  A call to `add_event` with the empty-string session
id — an id for which no queue was ever registered — is NOT discarded:
Python's `session_id or self._current_session` treats `""` as falsy, falls
back to the current session, and appends the event to that existing
session's queue, modifying it. -/
theorem C10_empty_session_id_not_discarded :
    (handlerKeys handlerEx).contains "" = false ∧
    addEvent handlerEx ("llm_response_start") [] 0 (some "") =
      ⟨[("s1", [⟨"llm_response_start", [], 0⟩])], some "s1"⟩ ∧
    addEvent handlerEx ("llm_response_start") [] 0 (some "") ≠ handlerEx := by
  refine ⟨rfl, rfl, ?_⟩
  intro h
  rw [show addEvent handlerEx ("llm_response_start") [] 0 (some "") =
      (⟨[("s1", [⟨"llm_response_start", [], 0⟩])], some "s1"⟩ : HandlerState)
    from rfl] at h
  simp [handlerEx] at h

/-- C10 (amended).  For every call with a NON-empty session id for which no
queue is registered, and for every call whose resolved target is not truthy
(no id given and no current session, or only empty-string ids), `add_event`
returns the state unchanged: no exception, no queue created, no queue
modified.  A call with the empty-string id instead falls back to the current
session, like a missing id. -/
theorem C10_unregistered_session_discard :
    ∀ (h : HandlerState) (et : String) (data : List (String × String)) (ts : Nat),
      (∀ sid : String, sid ≠ "" → (handlerKeys h).contains sid = false →
        addEvent h et data ts (some sid) = h) ∧
      (∀ sid : Option String, isTruthyStr (pyOrSession sid h.current) = false →
        addEvent h et data ts sid = h) := by
  intro h et data ts
  constructor
  · intro sid hne hreg
    have htr : isTruthyStr (some sid) = true := by
      simp [isTruthyStr]
      exact hne
    have hmem : sid ∉ handlerKeys h := by
      simpa using hreg
    simp [addEvent, pyOrSession, htr, hne, hmem]
  · intro sid hfalse
    unfold addEvent
    match hp : pyOrSession sid h.current with
    | none => rfl
    | some t =>
      rw [hp] at hfalse
      have : t = "" := by
        by_contra hne
        simp [isTruthyStr, hne] at hfalse
      simp [this]

/-- Witness for C10 (amended): an unregistered non-empty id is discarded,
and a call with no resolvable target is discarded. -/
theorem C10_unregistered_session_discard_witness :
    addEvent handlerEx ("error") [] 3 (some "ghost") = handlerEx ∧
    addEvent ⟨[], none⟩ ("error") [] 3 none = (⟨[], none⟩ : HandlerState) :=
  ⟨(C10_unregistered_session_discard handlerEx "error" [] 3).1 "ghost"
      (by decide) (by decide),
   (C10_unregistered_session_discard ⟨[], none⟩ "error" [] 3).2 none (by decide)⟩

/-! ## Claims about the hybrid retrieval read path -/

def rowD : DocRow := ⟨"D", "doc d", "delta", "", "", DocStatus.deleted, 0, some 0⟩

def storeC4 : FaissStore := ⟨1, [[0]], ["D"], [rowD], noFts, zeroRank⟩

/-- C4 counterexample.  There is NO store state and query for which a
soft-deleted document is returned among the semantic-tier results of the
hybrid read path: `search_documents` joins the vector hits against
`documents` with `... AND status = 'active'` before returning them, so every
returned semantic-tier entry is active — the claimed missing filter is in
fact present on the read path. -/
theorem C4_no_deleted_semantic_results :
    ¬ ∃ (st : FaissStore) (q : String) (e : List ℚ) (limit : Nat)
      (r : SearchResult),
      r ∈ searchDocuments st q (some e) limit SearchType.hybrid ∧
      r.tier = SearchTier.semantic ∧ r.row.status = DocStatus.deleted := by
  rintro ⟨st, q, e, limit, r, hr, _, hs⟩
  have hact := (preSortResults_row_facts (mem_searchDocuments hr)).1
  rw [hact] at hs
  exact absurd hs (by simp)

/-- On `storeC4` (one soft-deleted document at ordinal 0), the raw vector
layer returns the deleted document with similarity `1/(1+1)`. -/
theorem semanticSearch_storeC4 : semanticSearch storeC4 [1] 10 = [("D", 1/2)] := by
  have hd : sqDist [1] [0] = 1 := by norm_num [sqDist]
  rw [show storeC4 = ⟨1, [[0]], ["D"], [rowD], noFts, zeroRank⟩ from rfl]
  simp [semanticSearch, stableSortBy, insertStable, hd, List.enum, List.enumFrom]
  norm_num

theorem searchDocuments_storeC4 :
    searchDocuments storeC4 ("delta") (some [1]) 10 SearchType.hybrid = [] := by
  have h1 := semanticSearch_storeC4
  have hnone : ∀ l : List (String × ℚ),
      List.filterMap (fun _ => (none : Option SearchResult)) l = [] := by
    intro l
    simp
  rw [show storeC4 = ⟨1, [[0]], ["D"], [rowD], noFts, zeroRank⟩ from rfl] at h1 ⊢
  simp [searchDocuments, preSortResults, semTierOf, ftsSegment, kwSegment,
    semanticTierResults, docsDictFind, ftsTier, keywordTier, likeContains,
    h1, rowD, noFts, zeroRank, stableSortBy, insertStable, isSqlType,
    allowsFts, allowsKw, hnone]

/-- C4 (amended).  The raw vector layer `semantic_search` performs no
status filter — on `storeC4` it returns the soft-deleted document `D` — but
`search_documents` joins its hits against the metadata store with
`status = 'active'` (and the SQL tiers filter likewise), and so never
returns a deleted document; the deleted document still consumes a
vector-search slot. -/
theorem C4_active_join_on_read_path :
    semanticSearch storeC4 [1] 10 = [("D", 1/2)] ∧
    rowD.status = DocStatus.deleted ∧
    searchDocuments storeC4 ("delta") (some [1]) 10 SearchType.hybrid = [] ∧
    ∀ (st : FaissStore) (q : String) (e : Option (List ℚ)) (limit : Nat)
      (stype : SearchType),
      (searchDocuments st q e limit stype).all
        (fun r => r.row.status == DocStatus.active) = true := by
  refine ⟨semanticSearch_storeC4, rfl, searchDocuments_storeC4, ?_⟩
  intro st q e limit stype
  rw [List.all_eq_true]
  intro r hr
  have hact := (preSortResults_row_facts (mem_searchDocuments hr)).1
  rw [hact]
  simp

/-- An active document whose vector sits at ordinal 0 of the index. -/
def rowA2 : DocRow := ⟨"A", "titleA", "alpha", "", "", DocStatus.active, 0, some 0⟩

/-- An active document without an embedding, reachable only via the SQL
tiers. -/
def rowB2 : DocRow := ⟨"B", "titleB", "q beta", "", "", DocStatus.active, 1, none⟩

/-- An FTS `MATCH` oracle under which exactly document `B` matches the
query `q`. -/
def ftsOnlyB : String → DocRow → Bool :=
  fun query r => query == "q" && r.id == "B"

def storeC2 : FaissStore := ⟨1, [[0]], ["A"], [rowA2, rowB2], ftsOnlyB, zeroRank⟩

theorem semanticSearch_storeC2 : semanticSearch storeC2 [1] 10 = [("A", 1/2)] := by
  have hd : sqDist [1] [0] = 1 := by norm_num [sqDist]
  rw [show storeC2 = ⟨1, [[0]], ["A"], [rowA2, rowB2], ftsOnlyB, zeroRank⟩ from rfl]
  simp [semanticSearch, stableSortBy, insertStable, hd, List.enum, List.enumFrom]
  norm_num

theorem preSort_storeC2 :
    preSortResults storeC2 "q" (some [1]) 10 SearchType.hybrid =
      [⟨rowA2, 1/2, SearchTier.semantic⟩, ⟨rowB2, 4/5, SearchTier.fts⟩] := by
  have h1 := semanticSearch_storeC2
  rw [show storeC2 = ⟨1, [[0]], ["A"], [rowA2, rowB2], ftsOnlyB, zeroRank⟩ from rfl] at h1 ⊢
  simp only [rowA2, rowB2] at h1
  simp [preSortResults, semTierOf, ftsSegment, kwSegment,
    semanticTierResults, docsDictFind, ftsTier, keywordTier, likeContains,
    h1, rowA2, rowB2, ftsOnlyB, zeroRank, stableSortBy, insertStable,
    isSqlType, allowsFts, allowsKw]

theorem searchDocuments_storeC2 :
    searchDocuments storeC2 "q" (some [1]) 10 SearchType.hybrid =
      [⟨rowB2, 4/5, SearchTier.fts⟩, ⟨rowA2, 1/2, SearchTier.semantic⟩] := by
  have hlt : ((2:ℚ)⁻¹ < 4/5) := by norm_num
  simp [searchDocuments, preSort_storeC2, stableSortBy, insertStable, hlt]

/-- C2 counterexample.  The final `results.sort(key=similarity_score,
reverse=True)` of `search_documents` is one global sort, not a tier-ordered
concatenation: on `storeC2` the semantic hit `A` scores `1/(1+1) = 0.5`,
below the fixed full-text score `0.8`, so the full-text match `B` precedes
the semantic match `A` — a semantic-tier match does not precede every
full-text-tier match. -/
theorem C2_fts_precedes_lowscore_semantic :
    (searchDocuments storeC2 "q" (some [1]) 10 SearchType.hybrid).map
      (fun r => (r.row.id, r.tier, r.score)) =
      [("B", SearchTier.fts, 4/5), ("A", SearchTier.semantic, 1/2)] := by
  rw [searchDocuments_storeC2]
  rfl

/-- C2 (amended).  The result list of `search_documents` is globally
ordered by similarity score, non-increasing — hence within each tier scores
are non-increasing; full-text entries carry the fixed score `0.8` and
keyword entries the fixed score `0.6`, so every full-text match still
precedes every keyword match, but a semantic match with score below `0.8`
follows the full-text matches instead of preceding them. -/
theorem C2_results_sorted_by_score :
    ∀ (st : FaissStore) (q : String) (emb : Option (List ℚ)) (limit : Nat)
      (stype : SearchType),
      (searchDocuments st q emb limit stype).Pairwise
        (fun a b => b.score ≤ a.score) ∧
      (searchDocuments st q emb limit stype).Pairwise
        (fun a b => ¬(a.tier = SearchTier.keyword ∧ b.tier = SearchTier.fts)) ∧
      ∀ r ∈ searchDocuments st q emb limit stype,
        (r.tier = SearchTier.fts → r.score = 4/5) ∧
        (r.tier = SearchTier.keyword → r.score = 3/5) := by
  intro st q emb limit stype
  have hsorted : (searchDocuments st q emb limit stype).Pairwise
      (fun a b => b.score ≤ a.score) := by
    have hp := @pairwise_stableSortBy SearchResult
      (fun a b : SearchResult => b.score ≤ a.score)
      (fun a b : SearchResult => decide (b.score < a.score))
      (fun x y h => le_of_lt (of_decide_eq_true h))
      (fun x y h => le_of_not_lt (of_decide_eq_false h))
      (fun x y z h1 h2 => le_trans h2 h1)
      (preSortResults st q emb limit stype)
    exact List.Pairwise.sublist (List.take_sublist _ _) hp
  have hfacts : ∀ r ∈ searchDocuments st q emb limit stype,
      (r.tier = SearchTier.fts → r.score = 4/5) ∧
      (r.tier = SearchTier.keyword → r.score = 3/5) := by
    intro r hr
    exact (preSortResults_row_facts (mem_searchDocuments hr)).2
  refine ⟨hsorted, ?_, hfacts⟩
  refine List.Pairwise.imp_of_mem ?_ hsorted
  intro a b ha hb hle
  rintro ⟨hak, hbf⟩
  have h1 : a.score = 3/5 := ((hfacts a ha).2) hak
  have h2 : b.score = 4/5 := ((hfacts b hb).1) hbf
  rw [h1, h2] at hle
  norm_num at hle

/-- Witness for C2 (amended) at the concrete two-tier search on `storeC2`. -/
theorem C2_results_sorted_by_score_witness :
    ((⟨rowB2, 4/5, SearchTier.fts⟩ : SearchResult)).score = 4/5 :=
  (((C2_results_sorted_by_score storeC2 "q" (some [1]) 10
      SearchType.hybrid).2.2 ⟨rowB2, 4/5, SearchTier.fts⟩
      (by rw [searchDocuments_storeC2]; simp)).1) rfl

/-- With an embedding and `search_type='semantic'`, the assembled results
are exactly the semantic tier: the SQL block is skipped entirely. -/
theorem preSortResults_some_semantic (st : FaissStore) (q : String)
    (e : List ℚ) (limit : Nat) :
    preSortResults st q (some e) limit SearchType.semantic =
      semanticTierResults st (semanticSearch st e limit) := by
  simp [preSortResults, ftsSegment, kwSegment, semTierOf, isSqlType]

/-- With no embedding and `search_type='hybrid'`, the assembled results are
the full-text tier (no exclusions yet, up to `limit`) followed by the
keyword tier (excluding the full-text ids, up to the remaining slots). -/
theorem preSortResults_none_hybrid (st : FaissStore) (q : String)
    (limit : Nat) :
    preSortResults st q none limit SearchType.hybrid =
      (ftsTier st q [] limit).map
        (fun row => (⟨row, 4/5, SearchTier.fts⟩ : SearchResult)) ++
      (keywordTier st q ((ftsTier st q [] limit).map (fun r => r.id))
        (limit - (ftsTier st q [] limit).length)).map
        (fun row => (⟨row, 3/5, SearchTier.keyword⟩ : SearchResult)) := by
  have hsem : semTierOf st none limit SearchType.hybrid = [] := rfl
  by_cases hlim : 0 < limit
  · have hfseg : ftsSegment st q none limit SearchType.hybrid =
        (ftsTier st q [] limit).map
          (fun row => (⟨row, 4/5, SearchTier.fts⟩ : SearchResult)) := by
      simp [ftsSegment, hsem, isSqlType, allowsFts, hlim]
    by_cases hrem : 0 < limit - (ftsTier st q [] limit).length
    · have hkseg : kwSegment st q none limit SearchType.hybrid =
          (keywordTier st q ((ftsTier st q [] limit).map (fun r => r.id))
            (limit - (ftsTier st q [] limit).length)).map
            (fun row => (⟨row, 3/5, SearchTier.keyword⟩ : SearchResult)) := by
        simp [kwSegment, hsem, hfseg, isSqlType, allowsKw, hlim, hrem,
          List.map_map]
        rfl
      simp [preSortResults, hsem, hfseg, hkseg]
    · have hz : limit - (ftsTier st q [] limit).length = 0 := by omega
      have hkseg : kwSegment st q none limit SearchType.hybrid = [] := by
        simp [kwSegment, hsem, hfseg, isSqlType, allowsKw, hlim, hz]
      have hkt : keywordTier st q ((ftsTier st q [] limit).map (fun r => r.id))
          (limit - (ftsTier st q [] limit).length) = [] := by
        rw [hz]
        simp [keywordTier]
      simp [preSortResults, hsem, hfseg, hkseg, hkt]
  · have hz : limit = 0 := by omega
    subst hz
    have hft : ftsTier st q [] 0 = [] := by simp [ftsTier]
    have hkt : ∀ ids, keywordTier st q ids 0 = [] := by
      intro ids
      simp [keywordTier]
    simp [preSortResults, ftsSegment, kwSegment, hsem, hft, hkt]

/-- A store whose vector index is empty but whose only (active) document
matches the query via full-text search. -/
def storeC3 : FaissStore := ⟨1, [], [], [rowB2], ftsOnlyB, zeroRank⟩

theorem searchRelevantDocuments_storeC3 :
    searchRelevantDocuments storeC3 "q" (some [0]) 5 = [] := by
  have hempty : semanticSearch storeC3 [0] 10 = [] := by
    rw [show storeC3 = ⟨1, [], [], [rowB2], ftsOnlyB, zeroRank⟩ from rfl]
    simp [semanticSearch]
  simp [searchRelevantDocuments, searchDocuments, preSortResults_some_semantic,
    hempty, semanticTierResults, stableSortBy]

theorem ftsTier_storeC3 : ftsTier storeC3 "q" [] 10 = [rowB2] := by
  rw [show storeC3 = ⟨1, [], [], [rowB2], ftsOnlyB, zeroRank⟩ from rfl]
  simp [ftsTier, ftsOnlyB, rowB2, stableSortBy, insertStable]

theorem searchDocuments_storeC3_hybrid :
    searchDocuments storeC3 "q" none 10 SearchType.hybrid =
      [⟨rowB2, 4/5, SearchTier.fts⟩] := by
  have hkt : keywordTier storeC3 "q" ["B"] 9 = [] := by
    rw [show storeC3 = ⟨1, [], [], [rowB2], ftsOnlyB, zeroRank⟩ from rfl]
    simp +decide [keywordTier, likeContains, rowB2]
  simp [searchDocuments, preSortResults_none_hybrid, ftsTier_storeC3, hkt,
    rowB2, stableSortBy, insertStable]

/-- C3 counterexample.  With a query embedding available,
`search_relevant_documents` passes `search_type='semantic'` to
`search_documents`, which skips the full-text and keyword blocks entirely:
on `storeC3` the semantic tier yields 0 of the requested 5 results and an
active full-text match for the query exists (the embedding-less hybrid call
returns it), yet the returned list is empty — the full-text tier is NOT run
to fill up to `top_k` when an embedding is available. -/
theorem C3_no_fill_when_embedding_available :
    searchRelevantDocuments storeC3 "q" (some [0]) 5 = [] ∧
    storeC3.docs.filter (fun r => storeC3.ftsMatch "q" r &&
      decide (r.status = DocStatus.active)) = [rowB2] ∧
    searchDocuments storeC3 "q" none 10 SearchType.hybrid =
      [⟨rowB2, 4/5, SearchTier.fts⟩] := by
  refine ⟨searchRelevantDocuments_storeC3, ?_, searchDocuments_storeC3_hybrid⟩
  rw [show storeC3 = ⟨1, [], [], [rowB2], ftsOnlyB, zeroRank⟩ from rfl]
  simp [ftsOnlyB, rowB2]

/-- C3 (amended).  The full-text (then keyword) fallback tiers run, with
their id exclusions and up-to-limit fill, exactly when NO query embedding
is available (`search_type='hybrid'`): when an embedding is available,
`search_relevant_documents` requests `search_type='semantic'` and every
returned result is semantic-tier — the result list is never topped up by
the other tiers, however short the semantic tier falls. -/
theorem C3_fallback_only_without_embedding :
    ∀ (st : FaissStore) (q : String) (k : Nat),
      (∀ (e : List ℚ), ∀ r ∈ searchRelevantDocuments st q (some e) k,
        r.tier = SearchTier.semantic) ∧
      (∀ r ∈ searchRelevantDocuments st q none k,
        r.tier = SearchTier.fts ∨ r.tier = SearchTier.keyword) ∧
      (∀ limit : Nat,
        (searchDocuments st q none limit SearchType.hybrid).length =
          (ftsTier st q [] limit).length +
          (keywordTier st q ((ftsTier st q [] limit).map (fun r => r.id))
            (limit - (ftsTier st q [] limit).length)).length) := by
  intro st q k
  refine ⟨?_, ?_, ?_⟩
  · intro e r hr
    simp only [searchRelevantDocuments] at hr
    have h1 := mem_searchDocuments (List.mem_of_mem_take hr)
    rw [preSortResults_some_semantic] at h1
    exact (mem_semanticTierResults h1).1
  · intro r hr
    simp only [searchRelevantDocuments] at hr
    have h1 := mem_searchDocuments (List.mem_of_mem_take hr)
    rw [preSortResults_none_hybrid] at h1
    rcases List.mem_append.mp h1 with h2 | h2
    · rcases List.mem_map.mp h2 with ⟨row, _, hq⟩
      subst hq
      exact Or.inl rfl
    · rcases List.mem_map.mp h2 with ⟨row, _, hq⟩
      subst hq
      exact Or.inr rfl
  · intro limit
    have hf : (ftsTier st q [] limit).length ≤ limit := by
      simp [ftsTier]
    have hk : (keywordTier st q ((ftsTier st q [] limit).map (fun r => r.id))
        (limit - (ftsTier st q [] limit).length)).length ≤
        limit - (ftsTier st q [] limit).length := by
      simp [keywordTier]
    unfold searchDocuments
    rw [List.length_take, length_stableSortBy, preSortResults_none_hybrid]
    simp only [List.length_append, List.length_map]
    omega

theorem searchRelevantDocuments_storeC2 :
    searchRelevantDocuments storeC2 "q" (some [1]) 5 =
      [⟨rowA2, 1/2, SearchTier.semantic⟩] := by
  have h1 := semanticSearch_storeC2
  have hsem : semanticTierResults storeC2 (semanticSearch storeC2 [1] 10) =
      [⟨rowA2, 1/2, SearchTier.semantic⟩] := by
    rw [h1]
    rw [show storeC2 = ⟨1, [[0]], ["A"], [rowA2, rowB2], ftsOnlyB, zeroRank⟩ from rfl]
    simp [semanticTierResults, docsDictFind, rowA2, rowB2]
  simp [searchRelevantDocuments, searchDocuments, preSortResults_some_semantic,
    hsem, stableSortBy, insertStable]

/-- Witness for C3 (amended): with an embedding, the search on `storeC2`
returns only the semantic-tier result. -/
theorem C3_fallback_only_without_embedding_witness :
    (⟨rowA2, 1/2, SearchTier.semantic⟩ : SearchResult).tier =
      SearchTier.semantic :=
  (C3_fallback_only_without_embedding storeC2 "q" 5).1 [1]
    ⟨rowA2, 1/2, SearchTier.semantic⟩
    (by rw [searchRelevantDocuments_storeC2]; simp)

end Yomi
